import Mathlib

/-!
Shallow embedding of the `toy-interpreter` repository (Rust): the lexer
(`combinators.rs`, `lexer.rs`), the symbol table (`context.rs`), the
recursive-descent parser and tree evaluator (`parser.rs`), and the
per-line driver `run` (`main.rs`).

Modelling decisions:
* `f32` is modelled as the exact rationals `ℚ`.  Every claim settled here
  either involves only values on which `f32` arithmetic is exact, or is
  decided by a concrete counterexample that does not depend on rounding.
* Rust's `x as i64` on an `f32` truncates toward zero and saturates at the
  `i64` bounds; this is `toI64` below.  `%` on `i64` is remainder with the
  sign of the dividend, i.e. `Int.tmod`; a zero divisor aborts the process,
  modelled by the non-recoverable error `Err.panicked`.
* The parser's `Peekable` token iterator is modelled by explicit
  `List Token` state.  The mutually recursive parse functions take a fuel
  argument and `Context.parse` supplies more fuel than any input can use;
  running out of fuel yields the artificial `Err.fuel`, distinct from
  every behaviour of the source program.
-/

namespace ToyInterpreter

/- The Batteries `Rat` operations are `@[irreducible]`, which blocks
`decide`/`rfl` evaluation of concrete runs; restore the default
transparency (this does not affect what the kernel accepts). -/
set_option allowUnsafeReducibility true in
attribute [semireducible] Rat.add Rat.mul Rat.sub Rat.div Rat.inv Rat.neg Rat.normalize

deriving instance DecidableEq for Except

/-- `f32` modelled as an exact rational. -/
abbrev Val := ℚ

def I64_MIN : Int := -(2 ^ 63)

def I64_MAX : Int := 2 ^ 63 - 1

/-- Rust `x as i64` applied to an `f32` value: truncation toward zero,
saturating at the `i64` bounds. -/
def toI64 (q : Val) : Int := max I64_MIN (min I64_MAX (q.num.tdiv q.den))

/-- `lexer.rs`: `enum Operator`. -/
inductive Operator where
  | Add
  | Sub
  | Mul
  | Div
  | Mod
deriving DecidableEq

/-- Failure of a modelled computation. -/
inductive Err where
  /-- A Rust `Err(String)` value (lex or parse error). -/
  | msg (s : String)
  /-- A Rust process abort (integer remainder by zero); not recoverable. -/
  | panicked (s : String)
  /-- Artificial: parser fuel exhausted.  `Context.parse` supplies enough
  fuel that this never happens on any input. -/
  | fuel
deriving DecidableEq

/-- `lexer.rs`: `Operator::eval`.  The `Mod` arm is
`((left as i64) % (right as i64)) as f32`; the `i64` remainder panics when
the cast divisor is zero, and also on `i64::MIN % -1` (the one overflowing
case; Rust checks both in every build mode).  Otherwise it is remainder
with the sign of the dividend, `Int.tmod`.  (`Div` by zero yields a
non-finite `f32` in Rust; no claim under study divides by zero, and `ℚ`
division is used here.) -/
def Operator.eval : Operator → Val → Val → Except Err Val
  | .Add, l, r => .ok (l + r)
  | .Sub, l, r => .ok (l - r)
  | .Mul, l, r => .ok (l * r)
  | .Div, l, r => .ok (l / r)
  | .Mod, l, r =>
      if toI64 r = 0 then
        .error (.panicked "attempt to calculate the remainder with a divisor of zero")
      else if toI64 l = I64_MIN ∧ toI64 r = -1 then
        .error (.panicked "attempt to calculate the remainder with overflow")
      else
        .ok ((Int.tmod (toI64 l) (toI64 r) : Int) : Val)

/-- `lexer.rs`: `enum Token`. -/
inductive Token where
  | Id (s : String)
  | Number (v : Val)
  | Operator (op : Operator)
  | LBracket
  | RBracket
  /-- Assignment is a compound token carrying the target name. -/
  | Assign (s : String)
  /-- The function arrow `=>`. -/
  | Func
deriving DecidableEq

/-! ## Lexer (`combinators.rs`) -/

/-- `combinators.rs`: `struct ParseProgress`. -/
structure ParseProgress (α : Type) where
  tail : List Char
  token : Option α
deriving DecidableEq

/-- `combinators.rs`: `type ParseResult`. -/
abbrev ParseResult (α : Type) := Except String (ParseProgress α)

/-- A character of Rust's `"0123456789."`. -/
def isNumChar (c : Char) : Bool := c.isDigit || c = '.'

/-- Digit run to a natural number (used for both sides of the decimal point). -/
def natOfDigits (ds : List Char) : Nat :=
  ds.foldl (fun n c => 10 * n + (c.toNat - 48)) 0

/-- Rust `literal.parse::<f32>()` on a string of digits and at most one dot:
fails exactly when there is no digit at all (the literal `"."`), otherwise
the exact decimal value. -/
def parseNumLit (lit : List Char) : Option Val :=
  let intPart := lit.takeWhile (· ≠ '.')
  match lit.drop intPart.length with
  | [] => some (natOfDigits intPart : Val)
  | _ :: frac =>
      if intPart.isEmpty && frac.isEmpty then none
      else some ((natOfDigits intPart : Val) + (natOfDigits frac : Val) / (10 ^ frac.length : Val))

/-- `combinators.rs`: `fn number`. -/
def number (src : List Char) : ParseResult Val :=
  let firstNot := (src.takeWhile isNumChar).length
  if firstNot = 0 then
    .ok ⟨src, none⟩
  else
    let literal := src.take firstNot
    let tail := src.drop firstNot
    if 1 < (literal.filter (· = '.')).length then
      .error "Invalid number, only one decimal point allowed"
    else
      match parseNumLit literal with
      | some v => .ok ⟨tail, some v⟩
      | none => .error "Invalid numer"

/-- First character of a Rust identifier: `is_ascii_alphabetic` or `_`. -/
def isIdentStart (c : Char) : Bool := c.isAlpha || c = '_'

/-- Subsequent characters: `_` or `is_ascii_alphanumeric`. -/
def isIdentChar (c : Char) : Bool := c = '_' || c.isAlphanum

/-- `combinators.rs`: `fn identifier`. -/
def identifier (src : List Char) : ParseResult (List Char) :=
  match src with
  | [] => .ok ⟨[], none⟩
  | c :: _ =>
      if isIdentStart c then
        let lit := src.takeWhile isIdentChar
        .ok ⟨src.drop lit.length, some lit⟩
      else
        .ok ⟨src, none⟩

/-- Rust `str::trim_start` (leading whitespace removed). -/
def trimStart (s : List Char) : List Char := s.dropWhile Char.isWhitespace

/-- `combinators.rs`: `fn assignment` — an identifier, optional whitespace,
then `=` not followed by `>`; consumes through the `=`. -/
def assignment (src : List Char) : ParseResult (List Char) :=
  match identifier src with
  | .error e => .error e
  | .ok ⟨_, none⟩ => .ok ⟨src, none⟩
  | .ok ⟨tail, some ident⟩ =>
      match trimStart tail with
      | '=' :: rest =>
          match rest with
          | '>' :: _ => .ok ⟨src, none⟩
          | _ => .ok ⟨rest, some ident⟩
      | _ => .ok ⟨src, none⟩

/-- `combinators.rs`: `fn next_token` — the fixed attempt order is
assignment, identifier, number, `=>`, then single-character tokens. -/
def next_token (src : List Char) : ParseResult Token :=
  if src.isEmpty then .ok ⟨[], none⟩ else
  match assignment src with
  | .error e => .error e
  | .ok ⟨tail, some tok⟩ => .ok ⟨tail, some (.Assign tok.asString)⟩
  | .ok ⟨_, none⟩ =>
  match identifier src with
  | .error e => .error e
  | .ok ⟨tail, some tok⟩ => .ok ⟨tail, some (.Id tok.asString)⟩
  | .ok ⟨_, none⟩ =>
  match number src with
  | .error e => .error e
  | .ok ⟨tail, some v⟩ => .ok ⟨tail, some (.Number v)⟩
  | .ok ⟨_, none⟩ =>
  match src with
  | '=' :: '>' :: rest => .ok ⟨rest, some .Func⟩
  | '+' :: rest => .ok ⟨rest, some (.Operator .Add)⟩
  | '-' :: rest => .ok ⟨rest, some (.Operator .Sub)⟩
  | '*' :: rest => .ok ⟨rest, some (.Operator .Mul)⟩
  | '/' :: rest => .ok ⟨rest, some (.Operator .Div)⟩
  | '%' :: rest => .ok ⟨rest, some (.Operator .Mod)⟩
  | '(' :: rest => .ok ⟨rest, some .LBracket⟩
  | ')' :: rest => .ok ⟨rest, some .RBracket⟩
  | _ => .error "Invalid token"

theorem trimStart_length_le (s : List Char) : (trimStart s).length ≤ s.length :=
  (List.dropWhile_sublist Char.isWhitespace).length_le

theorem identifier_some_consumes {src tail lit : List Char}
    (h : identifier src = .ok ⟨tail, some lit⟩) : tail.length < src.length := by
  unfold identifier at h
  split at h
  · simp at h
  · rename_i c cs
    split at h
    · rename_i hs
      simp only [Except.ok.injEq, ParseProgress.mk.injEq, Option.some.injEq] at h
      obtain ⟨h1, h2⟩ := h
      subst h1
      have hchar : isIdentChar c = true := by
        unfold isIdentStart at hs
        unfold isIdentChar
        rcases Bool.or_eq_true_iff.mp hs with h1 | h1
        · simp [h1, Char.isAlphanum]
        · simp only [decide_eq_true_eq] at h1
          simp [h1]
      have hlen : 0 < ((c :: cs).takeWhile isIdentChar).length := by
        simp [List.takeWhile_cons_of_pos hchar]
      have hle : ((c :: cs).takeWhile isIdentChar).length ≤ (c :: cs).length :=
        (List.takeWhile_sublist isIdentChar).length_le
      simp only [List.length_drop, List.length_cons] at *
      omega
    · simp at h

theorem number_some_consumes {src tail : List Char} {v : Val}
    (h : number src = .ok ⟨tail, some v⟩) : tail.length < src.length := by
  unfold number at h
  dsimp only at h
  split at h
  · simp at h
  · rename_i h0
    split at h
    · simp at h
    · split at h
      · rename_i w hp
        simp only [Except.ok.injEq, ParseProgress.mk.injEq, Option.some.injEq] at h
        obtain ⟨h1, _⟩ := h
        subst h1
        have hle : (src.takeWhile isNumChar).length ≤ src.length :=
          (List.takeWhile_sublist isNumChar).length_le
        have hpos : src.length ≠ 0 := by
          intro hc
          rw [List.length_eq_zero] at hc
          subst hc
          simp at h0
        simp only [List.length_drop]
        omega
      · simp at h

theorem assignment_some_consumes {src tail lit : List Char}
    (h : assignment src = .ok ⟨tail, some lit⟩) : tail.length < src.length := by
  unfold assignment at h
  split at h
  · simp at h
  · simp at h
  · rename_i tail₁ ident hid
    have h1 : tail₁.length < src.length := identifier_some_consumes hid
    have h2 : (trimStart tail₁).length ≤ tail₁.length := trimStart_length_le tail₁
    split at h
    · rename_i rest ht
      split at h
      · simp at h
      · rename_i hr
        simp only [Except.ok.injEq, ParseProgress.mk.injEq, Option.some.injEq] at h
        obtain ⟨h3, _⟩ := h
        subst h3
        rw [ht] at h2
        simp only [List.length_cons] at h2
        omega
    · simp at h

theorem next_token_some_consumes {src tail : List Char} {tok : Token}
    (h : next_token src = .ok ⟨tail, some tok⟩) : tail.length < src.length := by
  unfold next_token at h
  split at h
  · simp at h
  · split at h
    · simp at h
    · rename_i ha
      simp only [Except.ok.injEq, ParseProgress.mk.injEq, Option.some.injEq] at h
      obtain ⟨h1, _⟩ := h
      subst h1
      exact assignment_some_consumes ha
    · split at h
      · simp at h
      · rename_i hi
        simp only [Except.ok.injEq, ParseProgress.mk.injEq, Option.some.injEq] at h
        obtain ⟨h1, _⟩ := h
        subst h1
        exact identifier_some_consumes hi
      · split at h
        · simp at h
        · rename_i hn
          simp only [Except.ok.injEq, ParseProgress.mk.injEq, Option.some.injEq] at h
          obtain ⟨h1, _⟩ := h
          subst h1
          exact number_some_consumes hn
        · split at h <;>
            first
              | (simp only [Except.ok.injEq, ParseProgress.mk.injEq, Option.some.injEq] at h
                 obtain ⟨h1, _⟩ := h
                 subst h1
                 simp only [List.length_cons]
                 omega)
              | simp at h

/-- `lexer.rs`: `fn tokenize` — the `iter::from_fn` loop: emit tokens,
trimming leading whitespace from the tail after each one; stop silently at
end of input; on a lexical error emit exactly that one error and stop.
The fuel argument only bounds the number of loop iterations; since every
emitted token consumes at least one character (`next_token_some_consumes`),
`src.length + 1` iterations always reach the end of the input
(`tokenizeF_fuel_irrelevant`). -/
def tokenizeF : Nat → List Char → List (Except String Token)
  | 0, _ => []
  | fuel + 1, src =>
      match next_token src with
      | .error e => [.error e]
      | .ok ⟨_, none⟩ => []
      | .ok ⟨tail, some tok⟩ => .ok tok :: tokenizeF fuel (trimStart tail)

/-- `lexer.rs`: `fn tokenize` on a whole line. -/
def tokenize (src : List Char) : List (Except String Token) :=
  tokenizeF (src.length + 1) src

/-- Any fuel beyond the length of the input gives the same token stream:
the `iter::from_fn` loop of `tokenize` genuinely terminates. -/
theorem tokenizeF_fuel_irrelevant :
    ∀ (f₁ : Nat) (src : List Char) (f₂ : Nat), src.length < f₁ → src.length < f₂ →
      tokenizeF f₁ src = tokenizeF f₂ src := by
  intro f₁
  induction f₁ with
  | zero => intro src f₂ h; omega
  | succ f ih =>
      intro src f₂ h1 h2
      match f₂, h2 with
      | g + 1, h2 =>
          show tokenizeF (f + 1) src = tokenizeF (g + 1) src
          unfold tokenizeF
          match hnt : next_token src with
          | .error e => rfl
          | .ok ⟨_, none⟩ => rfl
          | .ok ⟨tail, some tok⟩ =>
              have hc : tail.length < src.length := next_token_some_consumes hnt
              have ht : (trimStart tail).length ≤ tail.length := trimStart_length_le tail
              have := ih (trimStart tail) g (by omega) (by omega)
              simp only [this]

/-! ## AST (`parser.rs`) and symbol table (`context.rs`)

The Rust `dyn AST` trait objects form a closed set of node kinds
(`Terminal::Value/Assign/Argument`, `OpExpr`, `CallExpr`, `Function`),
modelled as one sum type.  A `CallExpr` stores the callee body
(`Rc<dyn AST>` obtained from `Context::get_func`) directly in the node. -/

inductive AST where
  /-- `Terminal::Value`: a literal or a variable value substituted at parse time. -/
  | Value (v : Val)
  /-- `Terminal::Assign(name, subtree)`. -/
  | Assign (name : String) (sub : AST)
  /-- `Terminal::Argument(index)`. -/
  | Argument (idx : Nat)
  /-- `OpExpr { op, left, right }`. -/
  | OpExpr (op : Operator) (left right : AST)
  /-- `CallExpr { func, args }` — `func` is the stored body of the callee. -/
  | Call (func : AST) (args : List AST)
  /-- `Function { name, arity, expr }`. -/
  | Function (name : String) (arity : Nat) (expr : AST)

/-- `context.rs`: `enum Symbol`. -/
inductive Symbol where
  | Variable (v : Val)
  | Function (arity : Nat) (body : AST)
  | Argument (idx : Nat)

/-- `Symbol::is_var`. -/
def Symbol.is_var : Symbol → Bool
  | .Variable _ => true
  | _ => false

/-- `Symbol::is_func`. -/
def Symbol.is_func : Symbol → Bool
  | .Function _ _ => true
  | _ => false

/-- `context.rs`: `struct Context` — a `HashMap<String, Symbol>` with unique
keys and irrelevant order, modelled extensionally as a partial map. -/
def Context := String → Option Symbol

/-- `Context::new`. -/
def Context.new : Context := fun _ => none

/-- Index of the last occurrence of `s` in `l` (a later duplicate insert
into the `HashMap` overwrites an earlier one). -/
def lastIdxOf : List String → String → Option Nat
  | [], _ => none
  | x :: xs, s =>
      match lastIdxOf xs s with
      | some i => some (i + 1)
      | none => if x = s then some 0 else none

/-- `Context::function_ctx` — the derived context for parsing a function
body: the parent's `Function` symbols, then one `Argument` binding per
formal parameter by position (parameters being inserted after the
functions, a parameter name overwrites a function of the same name). -/
def Context.function_ctx (args : List String) (parent : Context) : Context :=
  fun name =>
    match lastIdxOf args name with
    | some i => some (.Argument i)
    | none =>
        match parent name with
        | some (.Function a b) => some (.Function a b)
        | _ => none

/-- `Context::update_var` — `entry(..).and_modify(..).or_insert(..)`:
insert a new `Variable`, overwrite an existing `Variable` in place, and
leave a `Function` or `Argument` binding untouched. -/
def Context.update_var (ctx : Context) (var : String) (val : Val) : Context :=
  fun name =>
    if name = var then
      match ctx var with
      | some (.Variable _) => some (.Variable val)
      | some s => some s
      | none => some (.Variable val)
    else ctx name

/-- `Context::update_func` — insert a new `Function` or overwrite an
existing `Function`'s arity and body in place; a name bound to another tag
is left untouched. -/
def Context.update_func (ctx : Context) (fname : String) (arity : Nat) (expr : AST) : Context :=
  fun name =>
    if name = fname then
      match ctx fname with
      | some (.Function _ _) => some (.Function arity expr)
      | some s => some s
      | none => some (.Function arity expr)
    else ctx name

/-- `Context::is_var` — `true` (permissive default) for an absent name. -/
def Context.is_var (ctx : Context) (var : String) : Bool :=
  match ctx var with
  | none => true
  | some s => s.is_var

/-- `Context::is_func` — `true` (permissive default) for an absent name. -/
def Context.is_func (ctx : Context) (var : String) : Bool :=
  match ctx var with
  | none => true
  | some s => s.is_func

/-- `Context::get_var`. -/
def Context.get_var (ctx : Context) (var : String) : Option Val :=
  match ctx var with
  | some (.Variable v) => some v
  | _ => none

/-- `Context::get_arg`. -/
def Context.get_arg (ctx : Context) (var : String) : Option Nat :=
  match ctx var with
  | some (.Argument i) => some i
  | _ => none

/-- `Context::get_arity`. -/
def Context.get_arity (ctx : Context) (var : String) : Option Nat :=
  match ctx var with
  | some (.Function a _) => some a
  | _ => none

/-- `Context::get_func`. -/
def Context.get_func (ctx : Context) (var : String) : Option AST :=
  match ctx var with
  | some (.Function _ b) => some b
  | _ => none

/-! ## Evaluation (`parser.rs`, the `AST` trait methods) -/

/-- The trait method `value(&self) -> Option<f32>` (a statically known
value, used for constant folding).  `OpExpr::value` computes both child
values before combining them, and applying the operator can abort the
process (`Err.panicked`). -/
def AST.value : AST → Except Err (Option Val)
  | .Value v => .ok (some v)
  | .Assign _ _ => .ok none
  | .Argument _ => .ok none
  | .OpExpr op l r => do
      let lv ← l.value
      let rv ← r.value
      match lv, rv with
      | some a, some b => do
          let v ← op.eval a b
          .ok (some v)
      | _, _ => .ok none
  | .Call _ _ => .ok none
  | .Function _ _ _ => .ok none

mutual

/-- The trait method
`evaluate(&self, context: &mut Context, args: &[f32]) -> Option<f32>`.
The mutable context is threaded explicitly; `.ok (none, ctx)` is Rust's
`None` result (with whatever mutations already happened), and `.error`
is a process abort. -/
def AST.evaluate : AST → Context → List Val → Except Err (Option Val × Context)
  | .Value v, ctx, _ => .ok (some v, ctx)
  | .Assign var valExpr, ctx, args =>
      match valExpr.evaluate ctx args with
      | .error e => .error e
      | .ok (none, ctx') => .ok (none, ctx')
      | .ok (some v, ctx') => .ok (some v, ctx'.update_var var v)
  | .Argument i, ctx, args => .ok (args.get? i, ctx)
  | .OpExpr op l r, ctx, args =>
      match l.evaluate ctx args with
      | .error e => .error e
      | .ok (none, ctx₁) => .ok (none, ctx₁)
      | .ok (some lv, ctx₁) =>
          match r.evaluate ctx₁ args with
          | .error e => .error e
          | .ok (none, ctx₂) => .ok (none, ctx₂)
          | .ok (some rv, ctx₂) =>
              match op.eval lv rv with
              | .error e => .error e
              | .ok v => .ok (some v, ctx₂)
  | .Call f callArgs, ctx, args =>
      match evalArgList callArgs ctx args with
      | .error e => .error e
      | .ok (none, ctx') => .ok (none, ctx')
      | .ok (some vs, ctx') => f.evaluate ctx' vs
  | .Function fname arity expr, ctx, _ => .ok (none, ctx.update_func fname arity expr)

/-- `CallExpr::evaluate`'s argument collection:
`args.iter().map(|arg| arg.evaluate(context, args)).collect::<Option<Vec<_>>>()`
— left to right, stopping at the first `None`. -/
def evalArgList : List AST → Context → List Val → Except Err (Option (List Val) × Context)
  | [], ctx, _ => .ok (some [], ctx)
  | a :: rest, ctx, args =>
      match a.evaluate ctx args with
      | .error e => .error e
      | .ok (none, ctx') => .ok (none, ctx')
      | .ok (some v, ctx') =>
          match evalArgList rest ctx' args with
          | .error e => .error e
          | .ok (none, ctx'') => .ok (none, ctx'')
          | .ok (some vs, ctx'') => .ok (some (v :: vs), ctx'')

end

/-! ## Parser (`parser.rs`)

Each function takes the remaining token list and returns the parsed node
together with the tokens it did not consume.  The fuel argument only bounds
recursion depth; `Context.parse` supplies more fuel than any input can use. -/

/-- `OpExpr::get_next_multiplicative`. -/
def getNextMultiplicative : List Token → Option (Operator × List Token)
  | .Operator .Mul :: rest => some (.Mul, rest)
  | .Operator .Div :: rest => some (.Div, rest)
  | .Operator .Mod :: rest => some (.Mod, rest)
  | _ => none

/-- `OpExpr::get_next_additive`. -/
def getNextAdditive : List Token → Option (Operator × List Token)
  | .Operator .Add :: rest => some (.Add, rest)
  | .Operator .Sub :: rest => some (.Sub, rest)
  | _ => none

/-- `CallExpr::get_func` — peek an identifier that `is_func` accepts. -/
def getFuncName (tokens : List Token) (ctx : Context) : Option (String × List Token) :=
  match tokens with
  | .Id f :: rest => if ctx.is_func f then some (f, rest) else none
  | _ => none

/-- `Function::get_id`. -/
def getId : List Token → Option (String × List Token)
  | .Id s :: rest => some (s, rest)
  | _ => none

/-- `Function::parse`'s parameter loop: `while let Some(arg) = get_id`. -/
def getIds : List Token → List String × List Token
  | .Id s :: rest =>
      let (names, r) := getIds rest
      (s :: names, r)
  | ts => ([], ts)

mutual

/-- `Terminal::parse`.  Note the `LBracket` arm: the surrounding
`match tokens.next()` has already consumed the `(`, and the arm body calls
`tokens.next()` once more, discarding whatever token follows the `(`. -/
def terminalParse : Nat → List Token → Context → Except Err (AST × List Token)
  | 0, _, _ => .error .fuel
  | fuel + 1, tokens, ctx =>
      match tokens with
      | .Number x :: rest => .ok (.Value x, rest)
      | .LBracket :: rest =>
          match addParse fuel (rest.drop 1) ctx with
          | .error e => .error e
          | .ok (expr, rest') =>
              match rest' with
              | .RBracket :: rest'' => .ok (expr, rest'')
              | _ => .error (.msg "Invalid token, expected rbracket")
      | .Assign var :: rest =>
          if ctx.is_var var then
            match callParse fuel rest ctx with
            | .error e => .error e
            | .ok (expr, rest') => .ok (.Assign var expr, rest')
          else .error (.msg "Assigning to symbol which is not variable")
      | .Id var :: rest =>
          match ctx.get_var var with
          | some v => .ok (.Value v, rest)
          | none =>
              match ctx.get_arg var with
              | some i => .ok (.Argument i, rest)
              | none => .error (.msg "Non variable symbol as terminal token occured")
      | _ :: _ => .error (.msg "Unexpected token while parsing terminal expression")
      | [] => .error (.msg "Unexpected end of tokens list while parsing terminal expression")

/-- `OpExpr::parse_multiplicative`, first terminal. -/
def multParse : Nat → List Token → Context → Except Err (AST × List Token)
  | 0, _, _ => .error .fuel
  | fuel + 1, tokens, ctx =>
      match terminalParse fuel tokens ctx with
      | .error e => .error e
      | .ok (result, rest) => multLoop fuel result rest ctx

/-- `OpExpr::parse_multiplicative`, the `while let Some(op)` loop with its
constant-folding step: a freshly built `OpExpr` whose `value()` is known
collapses to a `Value` node (and computing that value can abort). -/
def multLoop : Nat → AST → List Token → Context → Except Err (AST × List Token)
  | 0, _, _, _ => .error .fuel
  | fuel + 1, result, tokens, ctx =>
      match getNextMultiplicative tokens with
      | none => .ok (result, tokens)
      | some (op, rest) =>
          match terminalParse fuel rest ctx with
          | .error e => .error e
          | .ok (right, rest') =>
              let r := AST.OpExpr op result right
              match r.value with
              | .error e => .error e
              | .ok (some v) => multLoop fuel (AST.Value v) rest' ctx
              | .ok none => multLoop fuel r rest' ctx

/-- `OpExpr::parse_additive`, first factor. -/
def addParse : Nat → List Token → Context → Except Err (AST × List Token)
  | 0, _, _ => .error .fuel
  | fuel + 1, tokens, ctx =>
      match multParse fuel tokens ctx with
      | .error e => .error e
      | .ok (result, rest) => addLoop fuel result rest ctx

/-- `OpExpr::parse_additive`, loop and constant folding (see `multLoop`).
`OpExpr::parse` is `parse_additive` itself. -/
def addLoop : Nat → AST → List Token → Context → Except Err (AST × List Token)
  | 0, _, _, _ => .error .fuel
  | fuel + 1, result, tokens, ctx =>
      match getNextAdditive tokens with
      | none => .ok (result, tokens)
      | some (op, rest) =>
          match multParse fuel rest ctx with
          | .error e => .error e
          | .ok (right, rest') =>
              let r := AST.OpExpr op result right
              match r.value with
              | .error e => .error e
              | .ok (some v) => addLoop fuel (AST.Value v) rest' ctx
              | .ok none => addLoop fuel r rest' ctx

/-- `CallExpr::parse` — a known-function identifier becomes a `Call` with
exactly `arity` recursively parsed arguments; otherwise fall through to
the operator-precedence expression. -/
def callParse : Nat → List Token → Context → Except Err (AST × List Token)
  | 0, _, _ => .error .fuel
  | fuel + 1, tokens, ctx =>
      match getFuncName tokens ctx with
      | some (fname, rest) =>
          let arity := (ctx.get_arity fname).getD 0
          match ctx.get_func fname with
          | none => .error (.msg "No function named")
          | some funcBody =>
              match argsParse fuel arity rest ctx with
              | .error e => .error e
              | .ok (args, rest') => .ok (.Call funcBody args, rest')
      | none => addParse fuel tokens ctx

/-- The `for _ in 0..arity` argument loop of `CallExpr::parse`. -/
def argsParse : Nat → Nat → List Token → Context → Except Err (List AST × List Token)
  | 0, _, _, _ => .error .fuel
  | _ + 1, 0, tokens, _ => .ok ([], tokens)
  | fuel + 1, n + 1, tokens, ctx =>
      match callParse fuel tokens ctx with
      | .error e => .error e
      | .ok (arg, rest) =>
          match argsParse fuel n rest ctx with
          | .error e => .error e
          | .ok (args, rest') => .ok (arg :: args, rest')

end

/-- `Function::parse` — function name (which must pass `is_func`),
parameter names, the `=>` token, then the body parsed as a
call-expression inside the restricted child context. -/
def functionParse (fuel : Nat) (tokens : List Token) (ctx : Context) :
    Except Err (AST × List Token) :=
  match getId tokens with
  | none => .error (.msg "Expected function name")
  | some (fname, rest) =>
      if ctx.is_func fname then
        match getIds rest with
        | (args, rest₂) =>
            match rest₂ with
            | .Func :: rest₃ =>
                let fctx := Context.function_ctx args ctx
                match callParse fuel rest₃ fctx with
                | .error e => .error e
                | .ok (expr, rest₄) => .ok (.Function fname args.length expr, rest₄)
            | _ => .error (.msg "Expected arrow token")
      else .error (.msg "Expected function name, but got not function id")

/-- Ample fuel for a token list: every parse step either consumes a token
or moves down the fixed grammar chain. -/
def parseFuel (tokens : List Token) : Nat := 8 * tokens.length + 8

/-- `parser.rs`: `Context::parse` — scan for a `=>` token to choose
function-definition or call-expression parsing.  The unconsumed tail of
the token list is DISCARDED, not checked. -/
def Context.parse (ctx : Context) (tokens : List Token) : Except Err AST :=
  if tokens.contains .Func then
    (functionParse (parseFuel tokens) tokens ctx).map (fun p => p.1)
  else
    (callParse (parseFuel tokens) tokens ctx).map (fun p => p.1)

/-! ## Per-line driver (`main.rs`) -/

/-- `tokenize(line).collect::<Result<Vec<_>>>()` — first error wins. -/
def collectTokens : List (Except String Token) → Except String (List Token)
  | [] => .ok []
  | .error e :: _ => .error e
  | .ok t :: rest => (collectTokens rest).map (fun ts => t :: ts)

/-- `main.rs`: `fn run` — tokenize, parse, evaluate against the context
with an empty argument array.  The resulting context is returned alongside
the optional value (on a lex or parse error the Rust context is unchanged). -/
def run (line : String) (ctx : Context) : Except Err (Option Val × Context) :=
  match collectTokens (tokenize line.data) with
  | .error e => .error (.msg e)
  | .ok tokens =>
      match ctx.parse tokens with
      | .error e => .error e
      | .ok ast => ast.evaluate ctx []

/-- The value a line prints (context dropped). -/
def runVal (line : String) (ctx : Context) : Except Err (Option Val) :=
  (run line ctx).map (fun p => p.1)

/-- The context a line leaves behind (unchanged when the line fails). -/
def runCtx (line : String) (ctx : Context) : Context :=
  match run line ctx with
  | .ok (_, c) => c
  | .error _ => ctx


/-! ## Properties under study -/

/-- `t.value()` reports a statically known value. -/
def knownValue (t : AST) : Bool :=
  match t.value with
  | .ok (some _) => true
  | _ => false

mutual

/-- No `OpExpr` node anywhere in the tree has two operand subtrees that
both report a statically known value (i.e. every foldable application was
folded). -/
def wellFolded : AST → Bool
  | .Value _ => true
  | .Argument _ => true
  | .Assign _ s => wellFolded s
  | .OpExpr _ l r => (!(knownValue l && knownValue r)) && wellFolded l && wellFolded r
  | .Call f args => wellFolded f && wellFoldedList args
  | .Function _ _ e => wellFolded e

/-- `wellFolded` on every element. -/
def wellFoldedList : List AST → Bool
  | [] => true
  | a :: rest => wellFolded a && wellFoldedList rest

end

/-- Every function body stored in the context is well folded (bodies are
re-used verbatim as `Call` nodes by the parser). -/
def Context.WellFolded (ctx : Context) : Prop :=
  ∀ (name : String) (a : Nat) (b : AST), ctx name = some (.Function a b) → wellFolded b = true


/-- A small sample context used by several witnesses: one function, one
variable, one argument binding. -/
def sampleCtx : Context := fun n =>
  if n = "f" then some (.Function 1 (.Value 2))
  else if n = "v" then some (.Variable 5)
  else if n = "p" then some (.Argument 0)
  else none

/-! ## Claims -/

/-- C1 counterexample: the token sequence of the line "10 10" parses to a
complete tree (`Value 10`) while the second `10` remains unconsumed, yet
`Context::parse` succeeds instead of returning a ParseError about trailing
input. -/
theorem C1_counterexample :
    Context.new.parse [Token.Number 10, Token.Number 10] = .ok (AST.Value 10) := by rfl

/-- C1 (amended): `Context::parse` performs no trailing-token check:
whenever the call-expression parser succeeds on a prefix of an arrow-free
token list, `Context::parse` returns that tree and discards the unconsumed
tail, so the line "10 10" silently evaluates to the leading
sub-expression's value 10.0. -/
theorem C1_trailing_tokens_ignored :
    (∀ (ctx : Context) (ts : List Token) (t : AST) (rest : List Token),
        ts.contains Token.Func = false →
        callParse (parseFuel ts) ts ctx = .ok (t, rest) →
        ctx.parse ts = .ok t) ∧
    runVal "10 10" Context.new = .ok (some 10) := by
  constructor
  · intro ctx ts t rest hf hp
    unfold Context.parse
    simp only [hf, Bool.false_eq_true, if_false, hp, Except.map]
  · rfl

/-- C1 witness for the amended theorem, at the tokens of "10 10". -/
theorem C1_trailing_tokens_ignored_witness :
    [Token.Number 10, Token.Number 10].contains Token.Func = false ∧
    Context.new.parse [Token.Number 10, Token.Number 10] = .ok (AST.Value (10 : Val)) :=
  ⟨by decide,
   C1_trailing_tokens_ignored.1 Context.new [Token.Number 10, Token.Number 10]
     (AST.Value 10) [Token.Number 10] (by decide) (by rfl)⟩

/-- C2: the claim states the spec's intent, but the code has a slip: in
`Terminal::parse` the `LBracket` arm calls `tokens.next()` although the
surrounding `match tokens.next()` already consumed the `(`, so the token
after the `(` is discarded.  Hence the parenthesized additive expression
"(10)" fails to parse (the discarded `10` leaves `)` as the next terminal
token) instead of parsing as a terminal that yields 10.0. -/
theorem C2_paren_terminal_fails :
    runVal "(10)" Context.new =
      .error (.msg "Unexpected token while parsing terminal expression") ∧
    Context.new.parse [Token.LBracket, Token.Number 10, Token.RBracket] =
      .error (.msg "Unexpected token while parsing terminal expression") := by
  exact ⟨by rfl, by rfl⟩

/-- C3: the claim fails on the code: for the input line "5 % 0" the parser
constant-folds `5 % 0`, whose `Operator::eval` computes the `i64` remainder
with divisor `0`, which panics — the process aborts instead of reporting a
result or an error message. -/
theorem C3_mod_zero_panic_aborts :
    run "5 % 0" Context.new =
      .error (.panicked "attempt to calculate the remainder with a divisor of zero") ∧
    Operator.eval .Mod 5 0 =
      .error (.panicked "attempt to calculate the remainder with a divisor of zero") := by
  exact ⟨by rfl, by rfl⟩

/-- C4 counterexample: at cast operands `i64::MIN` and `-1` (the `f32`
values `-(2^63)` and `-1` are exactly representable and the divisor is
nonzero), the `i64` remainder overflows and panics, so `Operator::eval`
does not produce the cast-back integer remainder (which would be `0`). -/
theorem C4_counterexample :
    Operator.eval .Mod (-(2 ^ 63 : Int) : Val) (-1) =
      .error (.panicked "attempt to calculate the remainder with overflow") ∧
    ((Int.tmod (toI64 (-(2 ^ 63 : Int) : Val)) (toI64 (-1 : Val)) : Int) : Val) = 0 := by
  exact ⟨by decide, by decide⟩

/-- C4 (amended): `Operator::eval` with `Mod` casts both operands to `i64`
(truncating toward zero, saturating), takes the `i64` remainder and casts
it back — for a nonzero cast divisor and excepting the single overflowing
pair `i64::MIN % -1`, where the process panics instead.  Consequently
"11 % 2 * 5 / 3" evaluates to 5/3, since 11 % 2 = 1 after truncation. -/
theorem C4_mod_integer_truncation :
    (∀ l r : Val, toI64 r ≠ 0 → ¬(toI64 l = I64_MIN ∧ toI64 r = -1) →
        Operator.eval .Mod l r = .ok ((Int.tmod (toI64 l) (toI64 r) : Int) : Val)) ∧
    runVal "11 % 2 * 5 / 3" Context.new = .ok (some (5 / 3)) := by
  constructor
  · intro l r h1 h2
    simp only [Operator.eval]
    rw [if_neg h1, if_neg h2]
  · rfl

/-- C4 witness for the amended theorem, at `11 % 2`. -/
theorem C4_mod_integer_truncation_witness :
    toI64 (2 : Val) ≠ 0 ∧ ¬(toI64 (11 : Val) = I64_MIN ∧ toI64 (2 : Val) = -1) ∧
    Operator.eval .Mod 11 2 = .ok ((Int.tmod (toI64 11) (toI64 2) : Int) : Val) :=
  ⟨by decide, by decide, C4_mod_integer_truncation.1 11 2 (by decide) (by decide)⟩

/-- C6: `update_var` inserts a `Variable` for an absent name, overwrites an
existing `Variable` in place, leaves a `Function` or `Argument` binding
completely unchanged (the numeric update is dropped), and touches no other
key. -/
theorem C6_update_var_semantics :
    ∀ (ctx : Context) (name : String) (v : Val),
      (ctx name = none → ctx.update_var name v name = some (.Variable v)) ∧
      (∀ old, ctx name = some (.Variable old) → ctx.update_var name v name = some (.Variable v)) ∧
      (∀ s, ctx name = some s → s.is_var = false → ctx.update_var name v name = some s) ∧
      (∀ other, other ≠ name → ctx.update_var name v other = ctx other) := by
  intro ctx name v
  refine ⟨?_, ?_, ?_, ?_⟩
  · intro h
    simp [Context.update_var, h]
  · intro old h
    simp [Context.update_var, h]
  · intro s h hs
    cases s with
    | Variable w => simp [Symbol.is_var] at hs
    | Function a b => simp [Context.update_var, h]
    | Argument i => simp [Context.update_var, h]
  · intro other h
    simp [Context.update_var, h]

/-- C6 witness: fresh insert, no-op on a `Function` binding, other keys
untouched. -/
theorem C6_update_var_semantics_witness :
    Context.new.update_var "a" 3 "a" = some (.Variable 3) ∧
    sampleCtx.update_var "f" 9 "f" = some (.Function 1 (.Value 2)) ∧
    sampleCtx.update_var "p" 9 "p" = some (.Argument 0) ∧
    sampleCtx.update_var "f" 9 "v" = sampleCtx "v" :=
  ⟨(C6_update_var_semantics Context.new "a" 3).1 rfl,
   (C6_update_var_semantics sampleCtx "f" 9).2.2.1 (.Function 1 (.Value 2)) rfl rfl,
   (C6_update_var_semantics sampleCtx "p" 9).2.2.1 (.Argument 0) rfl rfl,
   (C6_update_var_semantics sampleCtx "f" 9).2.2.2 "v" (by decide)⟩

/-- C7: for a name absent from the table both `is_var` and `is_func`
return true (the permissive default); for a present name each query
reports exactly the stored symbol's tag. -/
theorem C7_is_var_is_func_default :
    ∀ (ctx : Context) (name : String),
      (ctx name = none → ctx.is_var name = true ∧ ctx.is_func name = true) ∧
      (∀ s, ctx name = some s → ctx.is_var name = s.is_var ∧ ctx.is_func name = s.is_func) := by
  intro ctx name
  constructor
  · intro h
    unfold Context.is_var Context.is_func
    rw [h]
    exact ⟨rfl, rfl⟩
  · intro s h
    unfold Context.is_var Context.is_func
    rw [h]
    exact ⟨rfl, rfl⟩

/-- C7 witness: an absent name, a `Variable` name and a `Function` name. -/
theorem C7_is_var_is_func_default_witness :
    (Context.new.is_var "undeclared" = true ∧ Context.new.is_func "undeclared" = true) ∧
    sampleCtx.is_var "v" = true ∧ sampleCtx.is_func "v" = false ∧
    sampleCtx.is_var "f" = false ∧ sampleCtx.is_func "f" = true :=
  ⟨(C7_is_var_is_func_default Context.new "undeclared").1 rfl,
   ((C7_is_var_is_func_default sampleCtx "v").2 (.Variable 5) rfl).1,
   ((C7_is_var_is_func_default sampleCtx "v").2 (.Variable 5) rfl).2,
   ((C7_is_var_is_func_default sampleCtx "f").2 (.Function 1 (.Value 2)) rfl).1,
   ((C7_is_var_is_func_default sampleCtx "f").2 (.Function 1 (.Value 2)) rfl).2⟩

/-- C8: evaluating an `Assign` node first fully evaluates the right-hand
subtree, then writes the value into the context as a Variable, then yields
the value; when the subtree yields no value the assignment performs no
write of its own; and "a = 10" on a fresh context returns 10.0 and leaves
`a` bound to 10.0. -/
theorem C8_assign_evaluation :
    (∀ (aname : String) (sub : AST) (ctx : Context) (args : List Val),
        (∀ v ctx', sub.evaluate ctx args = .ok (some v, ctx') →
            (AST.Assign aname sub).evaluate ctx args = .ok (some v, ctx'.update_var aname v)) ∧
        (∀ ctx', sub.evaluate ctx args = .ok (none, ctx') →
            (AST.Assign aname sub).evaluate ctx args = .ok (none, ctx')) ∧
        (∀ e, sub.evaluate ctx args = .error e →
            (AST.Assign aname sub).evaluate ctx args = .error e)) ∧
    runVal "a = 10" Context.new = .ok (some 10) ∧
    runCtx "a = 10" Context.new "a" = some (.Variable 10) := by
  refine ⟨?_, by rfl, by rfl⟩
  intro aname sub ctx args
  refine ⟨?_, ?_, ?_⟩
  · intro v ctx' h
    simp only [AST.evaluate, h]
  · intro ctx' h
    simp only [AST.evaluate, h]
  · intro e h
    simp only [AST.evaluate, h]

/-- C8 witness, at the node parsed from "a = 10" in the empty context. -/
theorem C8_assign_evaluation_witness :
    (AST.Value 10).evaluate Context.new [] = .ok (some 10, Context.new) ∧
    (AST.Assign "a" (AST.Value 10)).evaluate Context.new [] =
      .ok (some 10, Context.new.update_var "a" 10) :=
  ⟨rfl,
   (C8_assign_evaluation.1 "a" (AST.Value 10) Context.new []).1 10 Context.new rfl⟩


theorem lastIdxOf_of_not_mem {args : List String} {name : String}
    (h : name ∉ args) : lastIdxOf args name = none := by
  induction args with
  | nil => rfl
  | cons x xs ih =>
      simp only [List.mem_cons, not_or] at h
      unfold lastIdxOf
      rw [ih h.2, if_neg (fun hx => h.1 hx.symm)]

theorem lastIdxOf_get {args : List String} (h : args.Nodup) (i : Fin args.length) :
    lastIdxOf args (args.get i) = some i.val := by
  induction args with
  | nil => exact absurd i.isLt (by simp)
  | cons x xs ih =>
      match i with
      | ⟨0, _⟩ =>
          have hx : x ∉ xs := (List.nodup_cons.mp h).1
          show lastIdxOf (x :: xs) x = some 0
          unfold lastIdxOf
          rw [lastIdxOf_of_not_mem hx, if_pos rfl]
      | ⟨j + 1, hj⟩ =>
          have hr := ih (List.nodup_cons.mp h).2 ⟨j, by simpa using hj⟩
          show lastIdxOf (x :: xs) (xs.get ⟨j, _⟩) = some (j + 1)
          unfold lastIdxOf
          rw [hr]

/-- C5: `function_ctx` builds a child context holding exactly the parent's
`Function` symbols plus an `Argument` binding at index `i` for the `i`-th
parameter name; the parent's `Variable` (and `Argument`) bindings are
dropped.  Consequently "add x y => x + y" followed by "add 3 4" yields
7.0, while a function body referencing an outer variable (`a` below) fails
to parse instead of seeing the variable. -/
theorem C5_function_ctx_scoping :
    (∀ (parent : Context) (args : List String), args.Nodup →
        (∀ i : Fin args.length,
            Context.function_ctx args parent (args.get i) = some (.Argument i)) ∧
        (∀ name, name ∉ args →
            (∀ a b, parent name = some (.Function a b) →
                Context.function_ctx args parent name = some (.Function a b)) ∧
            (∀ v, parent name = some (.Variable v) →
                Context.function_ctx args parent name = none) ∧
            (∀ i, parent name = some (.Argument i) →
                Context.function_ctx args parent name = none) ∧
            (parent name = none → Context.function_ctx args parent name = none))) ∧
    runVal "add 3 4" (runCtx "add x y => x + y" Context.new) = .ok (some 7) ∧
    runVal "f x => a" (runCtx "a = 1" Context.new) = .error (.msg "No function named") := by
  refine ⟨?_, by rfl, by rfl⟩
  intro parent args hnd
  constructor
  · intro i
    unfold Context.function_ctx
    rw [lastIdxOf_get hnd i]
  · intro name hmem
    have hn : lastIdxOf args name = none := lastIdxOf_of_not_mem hmem
    refine ⟨?_, ?_, ?_, ?_⟩
    · intro a b h
      unfold Context.function_ctx
      rw [hn, h]
    · intro v h
      unfold Context.function_ctx
      rw [hn, h]
    · intro i h
      unfold Context.function_ctx
      rw [hn, h]
    · intro h
      unfold Context.function_ctx
      rw [hn, h]

/-- C5 witness: parameters `x y` over `sampleCtx` (one function `f`, one
variable `v`). -/
theorem C5_function_ctx_scoping_witness :
    (["x", "y"] : List String).Nodup ∧
    Context.function_ctx ["x", "y"] sampleCtx "x" = some (.Argument 0) ∧
    Context.function_ctx ["x", "y"] sampleCtx "y" = some (.Argument 1) ∧
    Context.function_ctx ["x", "y"] sampleCtx "f" = some (.Function 1 (.Value 2)) ∧
    Context.function_ctx ["x", "y"] sampleCtx "v" = none :=
  ⟨by decide,
   (C5_function_ctx_scoping.1 sampleCtx ["x", "y"] (by decide)).1 ⟨0, by decide⟩,
   (C5_function_ctx_scoping.1 sampleCtx ["x", "y"] (by decide)).1 ⟨1, by decide⟩,
   ((C5_function_ctx_scoping.1 sampleCtx ["x", "y"] (by decide)).2 "f" (by decide)).1
     1 (.Value 2) rfl,
   ((C5_function_ctx_scoping.1 sampleCtx ["x", "y"] (by decide)).2 "v" (by decide)).2.1 5 rfl⟩


theorem tokenizeF_error_last :
    ∀ (fuel : Nat) (src : List Char) (i : Nat) (e : String),
      (tokenizeF fuel src).get? i = some (.error e) →
      i + 1 = (tokenizeF fuel src).length := by
  intro fuel
  induction fuel with
  | zero => intro src i e h; simp [tokenizeF] at h
  | succ f ih =>
      intro src i e h
      unfold tokenizeF at h ⊢
      split
      · rename_i e' heq
        rw [heq] at h
        match i with
        | 0 => rfl
        | n + 1 => exact Option.noConfusion h
      · rename_i t heq
        rw [heq] at h
        match i with
        | 0 => exact Option.noConfusion h
        | n + 1 => exact Option.noConfusion h
      · rename_i tail tok heq
        rw [heq] at h
        match i with
        | 0 =>
            have h' : some (Except.ok tok) = some (Except.error e) := h
            exact Except.noConfusion (Option.some.inj h')
        | n + 1 =>
            have := ih (trimStart tail) n e h
            simp only [List.length_cons]
            omega

/-- C10: the token stream of a line is a finite list; the fuel bound of the
model is irrelevant beyond the line length (the `from_fn` loop reaches the
end of input by itself); end of input yields no item; and a lexical error
is only ever the last item of the stream (exactly one error, nothing
after). -/
theorem C10_tokenize_terminates_on_error :
    tokenize [] = [] ∧
    (∀ (f : Nat) (src : List Char), src.length < f → tokenizeF f src = tokenize src) ∧
    (∀ (src : List Char) (i : Nat) (e : String),
        (tokenize src).get? i = some (.error e) → i + 1 = (tokenize src).length) := by
  refine ⟨by rfl, ?_, ?_⟩
  · intro f src h
    exact tokenizeF_fuel_irrelevant f src (src.length + 1) h (by omega)
  · intro src i e h
    exact tokenizeF_error_last (src.length + 1) src i e h

/-- C10 witness: the line "^" lexes to exactly one error item, in last
position; extra fuel changes nothing. -/
theorem C10_tokenize_terminates_on_error_witness :
    tokenizeF 5 "^".data = tokenize "^".data ∧
    (tokenize "^".data).get? 0 = some (.error "Invalid token") ∧
    0 + 1 = (tokenize "^".data).length :=
  ⟨C10_tokenize_terminates_on_error.2.1 5 "^".data (by decide),
   by decide,
   C10_tokenize_terminates_on_error.2.2 "^".data 0 "Invalid token" (by decide)⟩


theorem opExpr_value_none {op : Operator} {l r : AST}
    (h : (AST.OpExpr op l r).value = .ok none) :
    (knownValue l && knownValue r) = false := by
  match hl : l.value, hr : r.value with
  | .ok (some a), .ok (some b) =>
      exfalso
      simp only [AST.value, hl, hr, bind, Except.bind] at h
      match he : op.eval a b with
      | .ok v => rw [he] at h; simp at h
      | .error e => rw [he] at h; simp at h
  | .ok none, _ => simp [knownValue, hl]
  | .error e, _ => simp [knownValue, hl]
  | .ok (some a), .ok none => simp [knownValue, hr]
  | .ok (some a), .error e => simp [knownValue, hr]

theorem function_ctx_wellFolded {parent : Context} {args : List String}
    (h : parent.WellFolded) : (Context.function_ctx args parent).WellFolded := by
  intro name a b hn
  unfold Context.function_ctx at hn
  split at hn
  · simp at hn
  · split at hn
    · rename_i a' b' hp
      simp only [Option.some.injEq, Symbol.Function.injEq] at hn
      obtain ⟨rfl, rfl⟩ := hn
      exact h name a' b' hp
    · simp at hn


theorem get_func_wellFolded {ctx : Context} {fname : String} {b : AST}
    (hWF : ctx.WellFolded) (h : ctx.get_func fname = some b) : wellFolded b = true := by
  unfold Context.get_func at h
  split at h
  · rename_i a b' hp
    obtain rfl := Option.some.inj h
    exact hWF fname a b' hp
  · simp at h

theorem parse_wellFolded :
    ∀ fuel : Nat,
      (∀ tokens ctx t rest, Context.WellFolded ctx →
          terminalParse fuel tokens ctx = .ok (t, rest) → wellFolded t = true) ∧
      (∀ tokens ctx t rest, Context.WellFolded ctx →
          multParse fuel tokens ctx = .ok (t, rest) → wellFolded t = true) ∧
      (∀ acc tokens ctx t rest, Context.WellFolded ctx → wellFolded acc = true →
          multLoop fuel acc tokens ctx = .ok (t, rest) → wellFolded t = true) ∧
      (∀ tokens ctx t rest, Context.WellFolded ctx →
          addParse fuel tokens ctx = .ok (t, rest) → wellFolded t = true) ∧
      (∀ acc tokens ctx t rest, Context.WellFolded ctx → wellFolded acc = true →
          addLoop fuel acc tokens ctx = .ok (t, rest) → wellFolded t = true) ∧
      (∀ tokens ctx t rest, Context.WellFolded ctx →
          callParse fuel tokens ctx = .ok (t, rest) → wellFolded t = true) ∧
      (∀ n tokens ctx ts rest, Context.WellFolded ctx →
          argsParse fuel n tokens ctx = .ok (ts, rest) → wellFoldedList ts = true) := by
  intro fuel
  induction fuel with
  | zero =>
      refine ⟨?_, ?_, ?_, ?_, ?_, ?_, ?_⟩ <;> intros <;>
        simp_all [terminalParse, multParse, multLoop, addParse, addLoop, callParse, argsParse]
  | succ f ih =>
      obtain ⟨iht, ihm, ihml, iha, ihal, ihc, ihargs⟩ := ih
      refine ⟨?_, ?_, ?_, ?_, ?_, ?_, ?_⟩
      -- terminalParse
      · intro tokens ctx t rest hWF h
        unfold terminalParse at h
        split at h
        · simp only [Except.ok.injEq, Prod.mk.injEq] at h
          obtain ⟨rfl, rfl⟩ := h
          rfl
        · split at h
          · simp at h
          · rename_i expr rest' heq
            split at h
            · simp only [Except.ok.injEq, Prod.mk.injEq] at h
              obtain ⟨rfl, rfl⟩ := h
              exact iha _ _ _ _ hWF heq
            · simp at h
        · split at h
          · split at h
            · simp at h
            · rename_i expr rest' heq
              simp only [Except.ok.injEq, Prod.mk.injEq] at h
              obtain ⟨rfl, rfl⟩ := h
              simpa [wellFolded] using ihc _ _ _ _ hWF heq
          · simp at h
        · split at h
          · simp only [Except.ok.injEq, Prod.mk.injEq] at h
            obtain ⟨rfl, rfl⟩ := h
            rfl
          · split at h
            · simp only [Except.ok.injEq, Prod.mk.injEq] at h
              obtain ⟨rfl, rfl⟩ := h
              rfl
            · simp at h
        · simp at h
        · simp at h
      -- multParse
      · intro tokens ctx t rest hWF h
        unfold multParse at h
        split at h
        · simp at h
        · rename_i result rest₀ heq
          exact ihml _ _ _ _ _ hWF (iht _ _ _ _ hWF heq) h
      -- multLoop
      · intro acc tokens ctx t rest hWF hacc h
        unfold multLoop at h
        split at h
        · simp only [Except.ok.injEq, Prod.mk.injEq] at h
          obtain ⟨rfl, rfl⟩ := h
          exact hacc
        · rename_i op rest₀ hop
          split at h
          · simp at h
          · rename_i right rest₁ heq₁
            dsimp only at h
            split at h
            · simp at h
            · rename_i v heq₂
              exact ihml _ _ _ _ _ hWF (by rfl) h
            · rename_i heq₂
              have hright := iht _ _ _ _ hWF heq₁
              have hv := opExpr_value_none heq₂
              exact ihml _ _ _ _ _ hWF (by simp [wellFolded, hv, hacc, hright]) h
      -- addParse
      · intro tokens ctx t rest hWF h
        unfold addParse at h
        split at h
        · simp at h
        · rename_i result rest₀ heq
          exact ihal _ _ _ _ _ hWF (ihm _ _ _ _ hWF heq) h
      -- addLoop
      · intro acc tokens ctx t rest hWF hacc h
        unfold addLoop at h
        split at h
        · simp only [Except.ok.injEq, Prod.mk.injEq] at h
          obtain ⟨rfl, rfl⟩ := h
          exact hacc
        · rename_i op rest₀ hop
          split at h
          · simp at h
          · rename_i right rest₁ heq₁
            dsimp only at h
            split at h
            · simp at h
            · rename_i v heq₂
              exact ihal _ _ _ _ _ hWF (by rfl) h
            · rename_i heq₂
              have hright := ihm _ _ _ _ hWF heq₁
              have hv := opExpr_value_none heq₂
              exact ihal _ _ _ _ _ hWF (by simp [wellFolded, hv, hacc, hright]) h
      -- callParse
      · intro tokens ctx t rest hWF h
        unfold callParse at h
        split at h
        · rename_i fname rest₀ heqf
          dsimp only at h
          split at h
          · simp at h
          · rename_i funcBody heqb
            split at h
            · simp at h
            · rename_i args rest₁ heqa
              simp only [Except.ok.injEq, Prod.mk.injEq] at h
              obtain ⟨rfl, rfl⟩ := h
              have hb := get_func_wellFolded hWF heqb
              have hargs := ihargs _ _ _ _ _ hWF heqa
              simp [wellFolded, hb, hargs]
        · exact iha _ _ _ _ hWF h
      -- argsParse
      · intro n tokens ctx ts rest hWF h
        match n with
        | 0 =>
            unfold argsParse at h
            simp only [Except.ok.injEq, Prod.mk.injEq] at h
            obtain ⟨rfl, rfl⟩ := h
            rfl
        | m + 1 =>
            unfold argsParse at h
            split at h
            · simp at h
            · rename_i arg rest₀ heq₀
              split at h
              · simp at h
              · rename_i args rest₁ heq₁
                simp only [Except.ok.injEq, Prod.mk.injEq] at h
                obtain ⟨rfl, rfl⟩ := h
                have h₀ := ihc _ _ _ _ hWF heq₀
                have h₁ := ihargs _ _ _ _ _ hWF heq₁
                simp [wellFoldedList, h₀, h₁]


theorem functionParse_wellFolded {fuel : Nat} {tokens : List Token} {ctx : Context}
    {t : AST} {rest : List Token} (hWF : Context.WellFolded ctx)
    (h : functionParse fuel tokens ctx = .ok (t, rest)) : wellFolded t = true := by
  unfold functionParse at h
  split at h
  · simp at h
  · rename_i fname rest₀ heqf
    split at h
    · split at h
      rename_i p args rest₂ heqi
      split at h
      · rename_i rest₃
        dsimp only at h
        split at h
        · simp at h
        · rename_i expr rest₄ heqc
          simp only [Except.ok.injEq, Prod.mk.injEq] at h
          obtain ⟨rfl, rfl⟩ := h
          have hfctx : (Context.function_ctx args ctx).WellFolded :=
            function_ctx_wellFolded hWF
          simpa [wellFolded] using
            (parse_wellFolded fuel).2.2.2.2.2.1 _ _ _ _ hfctx heqc
      · simp at h
    · simp at h

/-- C9: constant folding at parse time — every tree returned by
`Context::parse` (from a context whose stored function bodies are
themselves well folded) contains no binary-operator node whose two operand
subtrees both report a statically known value; and the token sequences of
"10 + 2" and "12" parse to the same single `Value` node 12.0. -/
theorem C9_constant_folding :
    (∀ (ctx : Context) (tokens : List Token) (t : AST), ctx.WellFolded →
        ctx.parse tokens = .ok t → wellFolded t = true) ∧
    Context.new.parse [Token.Number 10, Token.Operator .Add, Token.Number 2] =
      .ok (AST.Value 12) ∧
    Context.new.parse [Token.Number 12] = .ok (AST.Value 12) := by
  refine ⟨?_, by rfl, by rfl⟩
  intro ctx tokens t hWF h
  unfold Context.parse at h
  split at h
  · match hf : functionParse (parseFuel tokens) tokens ctx with
    | .error e => rw [hf] at h; simp [Except.map] at h
    | .ok (t', rest) =>
        rw [hf] at h
        simp only [Except.map, Except.ok.injEq] at h
        obtain rfl := h
        exact functionParse_wellFolded hWF hf
  · match hf : callParse (parseFuel tokens) tokens ctx with
    | .error e => rw [hf] at h; simp [Except.map] at h
    | .ok (t', rest) =>
        rw [hf] at h
        simp only [Except.map, Except.ok.injEq] at h
        obtain rfl := h
        exact (parse_wellFolded (parseFuel tokens)).2.2.2.2.2.1 _ _ _ _ hWF hf

/-- C9 witness: the empty context is trivially well folded, and the claim
applies to the tree parsed from "10 + 2". -/
theorem C9_constant_folding_witness :
    Context.WellFolded Context.new ∧ wellFolded (AST.Value 12) = true :=
  have hWF : Context.WellFolded Context.new := fun name a b h => Option.noConfusion h
  ⟨hWF,
   C9_constant_folding.1 Context.new [Token.Number 10, Token.Operator .Add, Token.Number 2]
     (AST.Value 12) hWF (by rfl)⟩

end ToyInterpreter
